import Mathlib

/-!
Verification development for the MusicXML importer (`src/iomusxml.cpp`).
The stateful conversion routines are embedded shallowly: each modelled C++
member function becomes a pure Lean function over an explicit state record,
with the XML queries it performs passed in as parameters (the query results),
and `LogWarning` calls counted in a `warnings` field.  Pointer-mutated
objects (ties, slurs, octave brackets, layer elements) live in explicit
arenas (lists or functions indexed by an identifier).
-/

namespace Verovio

--------------------------------------------------------------------------------
-- Lookup tables (ConvertTypeToDur, ConvertOrientationToCurvedir; iomusxml.cpp:1806-1842)
--------------------------------------------------------------------------------

/-- The `data_DURATION` values produced by `ConvertTypeToDur`. -/
inductive DataDuration where
  | maxima | long | breve | n1 | n2 | n4 | n8 | n16 | n32 | n64 | n128 | n256 | NONE
deriving DecidableEq, Repr, Inhabited

/-- Model of `MusicXmlInput::ConvertTypeToDur` (iomusxml.cpp:1806-1822).
Returns the mapped duration together with the number of warnings logged by
the call (the fallback branch calls `LogWarning` once). -/
def convertTypeToDur (value : String) : DataDuration × Nat :=
  if value = "maxima" then (DataDuration.maxima, 0)
  else if value = "long" then (DataDuration.long, 0)
  else if value = "breve" then (DataDuration.breve, 0)
  else if value = "whole" then (DataDuration.n1, 0)
  else if value = "half" then (DataDuration.n2, 0)
  else if value = "quarter" then (DataDuration.n4, 0)
  else if value = "eighth" then (DataDuration.n8, 0)
  else if value = "16th" then (DataDuration.n16, 0)
  else if value = "32nd" then (DataDuration.n32, 0)
  else if value = "64th" then (DataDuration.n64, 0)
  else if value = "128th" then (DataDuration.n128, 0)
  else if value = "256th" then (DataDuration.n256, 0)
  else (DataDuration.NONE, 1)

/-- The valid vocabulary of `ConvertTypeToDur`. -/
def validDurTypes : List String :=
  ["maxima", "long", "breve", "whole", "half", "quarter", "eighth",
   "16th", "32nd", "64th", "128th", "256th"]

/-- The `curvature_CURVEDIR` values produced by `ConvertOrientationToCurvedir`. -/
inductive CurvatureDir where
  | above | below | NONE
deriving DecidableEq, Repr, Inhabited

/-- Model of `MusicXmlInput::ConvertOrientationToCurvedir` (iomusxml.cpp:1837-1842).
The fallback branch logs no warning. -/
def convertOrientationToCurvedir (value : String) : CurvatureDir × Nat :=
  if value = "over" then (CurvatureDir.above, 0)
  else if value = "under" then (CurvatureDir.below, 0)
  else (CurvatureDir.NONE, 0)

--------------------------------------------------------------------------------
-- Entry points ImportFile / ImportString (iomusxml.cpp:66-97)
--------------------------------------------------------------------------------

/-- The `Doc` type values relevant here (`m_doc->SetType(Raw)`). -/
inductive DocFileType where
  | Raw | Rendered | Transcription
deriving DecidableEq, Repr

/-- The caller-supplied destination document, abstracted to the fields the
entry points touch: its type tag and whether a score was built into it. -/
structure Doc where
  docType : DocFileType
  hasScoreContent : Bool
deriving DecidableEq, Repr

/-- One attempted XML parse: `ok` is the `pugi::xml_parse_result` status and
`rootPresent` stands for `xmlDoc.first_child()` of the (possibly partial)
tree being non-null. -/
structure ParseAttempt where
  ok : Bool
  rootPresent : Bool
deriving DecidableEq, Repr

/-- Model of `MusicXmlInput::ReadMusicXml` (iomusxml.cpp:414-531): it builds
the score into the document (title/header, score buffer, section, parts) and
ends with `return true`; no path inside it returns false. -/
def readMusicXml (_rootPresent : Bool) (doc : Doc) : Bool × Doc :=
  (true, { doc with hasScoreContent := true })

/-- Model of `MusicXmlInput::ImportFile` (iomusxml.cpp:66-82): the document
type is set to `Raw` first; a failed parse returns false before conversion. -/
def importFile (p : ParseAttempt) (doc : Doc) : Bool × Doc :=
  let doc := { doc with docType := DocFileType.Raw }
  if !p.ok then (false, doc) else readMusicXml p.rootPresent doc

/-- Model of `MusicXmlInput::ImportString` (iomusxml.cpp:84-97): the parse
result of `xmlDoc.load` is discarded, so conversion always proceeds on the
first child of whatever tree the parse left behind. -/
def importString (p : ParseAttempt) (doc : Doc) : Bool × Doc :=
  let doc := { doc with docType := DocFileType.Raw }
  readMusicXml p.rootPresent doc

--------------------------------------------------------------------------------
-- Tie and slur pending-match stacks (OpenTie/CloseTie/OpenSlur/CloseSlur,
-- iomusxml.cpp:309-354) and the tie slice of ReadMusicXmlNote (:1430-1448)
--------------------------------------------------------------------------------

/-- Pitch letters (`data_PITCHNAME`). -/
inductive PitchName where
  | c | d | e | f | g | a | b | NONE
deriving DecidableEq, Repr, Inhabited

/-- The four-field key recorded by `musicxml::OpenTie`. -/
structure TieKey where
  staffN : Nat
  layerN : Nat
  pname : PitchName
  oct : Int
deriving DecidableEq, Repr

/-- Start/end reference fields of a spanning control element. -/
structure SpanData where
  startid : Option String := none
  endid : Option String := none
deriving DecidableEq, Repr, Inhabited

/-- State of the tie resolver: `m_tieStack` holds (tie id, open-tie record)
pairs in `push_back` order; the tie objects themselves are an arena indexed
by id, since `CloseTie` mutates a tie that is already stored elsewhere. -/
structure TieState where
  tieStack : List (Nat × TieKey)
  ties : Nat → SpanData
  warnings : Nat

/-- Model of `MusicXmlInput::OpenTie` (iomusxml.cpp:309-314). -/
def openTie (tieId : Nat) (key : TieKey) (noteUuid : String) (s : TieState) : TieState :=
  { s with
    ties := fun i =>
      if i = tieId then { s.ties tieId with startid := some ("#" ++ noteUuid) } else s.ties i,
    tieStack := s.tieStack ++ [(tieId, key)] }

/-- The scan loop of `CloseTie`: first entry (in insertion order) matching
the four-field key; returns its tie id and the stack with it erased. -/
def closeTieScan (key : TieKey) : List (Nat × TieKey) → Option (Nat × List (Nat × TieKey))
  | [] => none
  | e :: rest =>
    if e.2 = key then some (e.1, rest)
    else
      match closeTieScan key rest with
      | none => none
      | some (t, rest') => some (t, e :: rest')

/-- Model of `MusicXmlInput::CloseTie` (iomusxml.cpp:316-332): on a match the
end reference is assigned and the entry erased, with a warning when the note
lacked `tied[@type='stop']`; on no match the function silently returns. -/
def closeTie (key : TieKey) (noteUuid : String) (isClosingTie : Bool) (s : TieState) : TieState :=
  match closeTieScan key s.tieStack with
  | none => s
  | some (t, stack') =>
    { s with
      ties := fun i =>
        if i = t then { s.ties t with endid := some ("#" ++ noteUuid) } else s.ties i,
      tieStack := stack',
      warnings := s.warnings + (if isClosingTie then 0 else 1) }

/-- The key recorded by `musicxml::OpenSlur` (staff, layer, slur number). -/
structure SlurKey where
  staffN : Nat
  layerN : Nat
  number : Nat
deriving DecidableEq, Repr

/-- State of the slur resolver (`m_slurStack` plus the slur arena). -/
structure SlurState where
  slurStack : List (Nat × SlurKey)
  slurs : Nat → SpanData
  warnings : Nat

/-- Model of `MusicXmlInput::OpenSlur` (iomusxml.cpp:334-340); `m_ID` is the
reference string of the previously read element. -/
def openSlur (slurId : Nat) (key : SlurKey) (mID : String) (s : SlurState) : SlurState :=
  { s with
    slurs := fun i =>
      if i = slurId then { s.slurs slurId with startid := some mID } else s.slurs i,
    slurStack := s.slurStack ++ [(slurId, key)] }

/-- The scan loop of `CloseSlur`. -/
def closeSlurScan (key : SlurKey) : List (Nat × SlurKey) → Option (Nat × List (Nat × SlurKey))
  | [] => none
  | e :: rest =>
    if e.2 = key then some (e.1, rest)
    else
      match closeSlurScan key rest with
      | none => none
      | some (t, rest') => some (t, e :: rest')

/-- Model of `MusicXmlInput::CloseSlur` (iomusxml.cpp:342-354): on a match
the end reference is assigned and the entry erased; on no match exactly one
warning is logged and the state is otherwise untouched. -/
def closeSlur (key : SlurKey) (elementUuid : String) (s : SlurState) : SlurState :=
  match closeSlurScan key s.slurStack with
  | none => { s with warnings := s.warnings + 1 }
  | some (t, stack') =>
    { s with
      slurs := fun i =>
        if i = t then { s.slurs t with endid := some ("#" ++ elementUuid) } else s.slurs i,
      slurStack := stack' }

/-- Tie-handling slice of `ReadMusicXmlNote` (iomusxml.cpp:1430-1448):
`CloseTie` is invoked unconditionally for every pitched note, with the
presence of `tied[@type='stop']` only deciding the warning; a new tie is
opened afterwards when `tied[@type='start']` is present. -/
def noteTiePhase (key : TieKey) (noteUuid : String) (hasStartTie hasStopTie : Bool)
    (newTieId : Nat) (s : TieState) : TieState :=
  let s := closeTie key noteUuid hasStopTie s
  if hasStartTie then openTie newTieId key noteUuid s else s

/-- A concrete tie key, used by the concrete instances below. -/
def tieKey0 : TieKey := { staffN := 1, layerN := 1, pname := PitchName.c, oct := 4 }

/-- A concrete empty tie-resolver state. -/
def tieState0 : TieState :=
  { tieStack := [], ties := fun _ => {}, warnings := 0 }

/-- A concrete slur key. -/
def slurKey0 : SlurKey := { staffN := 1, layerN := 1, number := 1 }

/-- A concrete empty slur-resolver state. -/
def slurState0 : SlurState :=
  { slurStack := [], slurs := fun _ => {}, warnings := 0 }

--------------------------------------------------------------------------------
-- Octave shifts (ReadMusicXmlDirection octave-shift branch, iomusxml.cpp:1026-1062;
-- octave application and octave-stack flush in ReadMusicXmlNote, :1309-1317,
-- :1491, :1693-1699)
--------------------------------------------------------------------------------

/-- An `Octave` control element, restricted to the fields this code touches. -/
structure OctaveEl where
  staffAttr : List Nat
  startid : Option String := none
  endid : Option String := none
deriving DecidableEq, Repr, Inhabited

/-- A pitched note's octave-related output fields. -/
structure NoteOut where
  oct : Int
  octGes : Option Int
  uuid : String
deriving DecidableEq, Repr

/-- Octave-shift state: `m_octDis` as a per-staff function (the vector,
indexed by staff number), the `Octave` members of `m_controlElements` in
creation order, `m_octaveStack` as indices into that list, and `m_ID`. -/
structure OctState where
  octDis : Nat → Int
  controlOctaves : List OctaveEl
  octaveStack : List Nat
  mID : String

/-- Octave-shift start branch of `ReadMusicXmlDirection` (iomusxml.cpp:1044-1061):
the displacement is `(size + 2) / 8` in C++ integer division, negated for
`type=down`; the new `Octave` carries the direction's staff number and is
pushed on both `m_controlElements` and `m_octaveStack`. -/
def readOctaveShiftStart (down : Bool) (size : Int) (staffN : Nat) (s : OctState) : OctState :=
  let dis0 := Int.tdiv (size + 2) 8
  let dis := if down then -dis0 else dis0
  let octave : OctaveEl := { staffAttr := [staffN] }
  { s with
    octDis := fun n => if n = staffN then dis else s.octDis n,
    controlOctaves := s.controlOctaves ++ [octave],
    octaveStack := s.octaveStack ++ [s.controlOctaves.length] }

/-- Octave-shift stop branch of `ReadMusicXmlDirection` (iomusxml.cpp:1030-1043):
the staff's displacement is cleared and every `Octave` control element whose
staff attribute contains this staff and which has no end reference yet gets
`m_ID` (the most recently read element) as end reference. -/
def readOctaveShiftStop (staffN : Nat) (s : OctState) : OctState :=
  { s with
    octDis := fun n => if n = staffN then 0 else s.octDis n,
    controlOctaves := s.controlOctaves.map (fun o =>
      if staffN ∈ o.staffAttr ∧ o.endid = none then { o with endid := some s.mID } else o) }

/-- Octave-relevant slice of `ReadMusicXmlNote` for a pitched note: the
written octave gets the active displacement added, with the literal octave
recorded in `@oct.ges` (iomusxml.cpp:1309-1317); `m_ID` is updated to the new
element's reference (:1491); and the octave stack is flushed, setting this
note's staff and reference as each pending octave's staff and start id
(:1693-1699), then cleared. -/
def readNoteOctavePhase (staffN : Nat) (litOct : Int) (uuid : String) (s : OctState) :
    NoteOut × OctState :=
  let note : NoteOut :=
    if s.octDis staffN ≠ 0 then
      { oct := litOct + s.octDis staffN, octGes := some litOct, uuid := uuid }
    else
      { oct := litOct, octGes := none, uuid := uuid }
  let mID := "#" ++ uuid
  let flushed := s.octaveStack.foldl
    (fun co idx =>
      let o := co.getD idx default
      co.set idx { o with staffAttr := [staffN], startid := some mID })
    s.controlOctaves
  (note, { s with mID := mID, controlOctaves := flushed, octaveStack := [] })

--------------------------------------------------------------------------------
-- Nesting stack and the chord slice of ReadMusicXmlNote
-- (RemoveLastFromStack iomusxml.cpp:266-275, AddLayerElement :194-204,
--  chord handling :1335-1377 / :1480-1488)
--------------------------------------------------------------------------------

/-- The `ClassId` constants this code compares stack entries against. -/
inductive ClassId where
  | NOTE | CHORD | BEAM | TUPLET | BTREM | FTREM
deriving DecidableEq, Repr, Inhabited

/-- Model of `MusicXmlInput::RemoveLastFromStack` (iomusxml.cpp:266-275): the
stack is iterated from the top (`rbegin`) downwards and the first entry whose
class matches is erased; erasing the first match of the reversed list and
reversing back expresses exactly that. -/
def removeLastFromStack (isC : α → Bool) (stack : List α) : List α :=
  (stack.reverse.eraseP isC).reverse

/-- A layer element, restricted to the fields the chord slice touches.
Elements live in an arena (indexed list) because the stack and the layer
hold references into it. -/
structure CElem where
  kind : ClassId
  uuid : String
  dur : Option DataDuration := none
  dots : Option Nat := none
  children : List Nat := []
deriving DecidableEq, Repr, Inhabited

/-- State for the chord slice: the element arena, the layer's direct children
and `m_elementStack` (both as arena indices). -/
structure LayerState where
  arena : List CElem
  layerChildren : List Nat
  elementStack : List Nat
deriving DecidableEq, Repr

/-- Model of `MusicXmlInput::AddLayerElement` (iomusxml.cpp:194-204): attach
to the innermost open container when the stack is non-empty, else to the
layer itself. -/
def addLayerElement (eid : Nat) (s : LayerState) : LayerState :=
  match s.elementStack.getLast? with
  | none => { s with layerChildren := s.layerChildren ++ [eid] }
  | some top =>
    let e := s.arena.getD top default
    { s with arena := s.arena.set top { e with children := e.children ++ [eid] } }

/-- The `m_elementStack.back()->Is(CHORD)` test (false on an empty stack). -/
def stackTopIsChord (s : LayerState) : Bool :=
  match s.elementStack.getLast? with
  | none => false
  | some top => (s.arena.getD top default).kind == ClassId.CHORD

/-- The guarded chord pop of `ReadMusicXmlNote` (iomusxml.cpp:1483-1488). -/
def removeLastChord (s : LayerState) : LayerState :=
  let st := removeLastFromStack
    (fun eid => (s.arena.getD eid default).kind == ClassId.CHORD) s.elementStack
  { s with elementStack := st }

/-- Chord-relevant slice of `ReadMusicXmlNote` for a pitched note carrying no
tremolo, beam, tuplet, grace, lyric or tie markings (iomusxml.cpp:1274-1276,
1335-1352, 1370-1377, 1480-1488): create the note; when the next sibling note
is a chord member and no chord container is open, create a chord carrying the
duration and dots and push it; set duration and dots on the note itself only
when no chord container is open; attach the note; pop the chord container
when the look-ahead shows the chord ending. -/
def readNoteChordPhase (typeStr : String) (dots : Nat) (nextIsChord : Bool)
    (noteUuid chordUuid : String) (s : LayerState) : LayerState :=
  let noteId := s.arena.length
  let newNote : CElem := { kind := ClassId.NOTE, uuid := noteUuid }
  let s := { s with arena := s.arena ++ [newNote] }
  let s :=
    if nextIsChord && !(stackTopIsChord s) then
      let chordId := s.arena.length
      let chord : CElem :=
        { kind := ClassId.CHORD, uuid := chordUuid,
          dur := some (convertTypeToDur typeStr).1,
          dots := if 0 < dots then some dots else none }
      let s := { s with arena := s.arena ++ [chord] }
      let s := addLayerElement chordId s
      { s with elementStack := s.elementStack ++ [chordId] }
    else s
  let s :=
    if !(stackTopIsChord s) then
      let e := s.arena.getD noteId default
      let e2 : CElem :=
        { e with dur := some (convertTypeToDur typeStr).1,
                 dots := if 0 < dots then some dots else none }
      { s with arena := s.arena.set noteId e2 }
    else s
  let s := addLayerElement noteId s
  if !nextIsChord && stackTopIsChord s then removeLastChord s else s

--------------------------------------------------------------------------------
-- Duration cursor: FillSpace (iomusxml.cpp:277-292) and
-- ReadMusicXmlForward (:1100-1123)
--------------------------------------------------------------------------------

/-- Truncation of a rational toward zero, as the C++ float-to-int conversion.
The float arithmetic of `FillSpace` is modelled exactly over `ℚ`. -/
def truncQ (q : ℚ) : Int :=
  if q < 0 then -(Int.floor (-q)) else Int.floor q

/-- The per-iteration `quaters` value of the `FillSpace` loop: the gap in
quarter notes, truncated to an integer when above one and capped at two. -/
def quatersOf (ppq dur : Int) : ℚ :=
  let q0 : ℚ := (dur : ℚ) / (ppq : ℚ)
  let q1 : ℚ := if 1 < q0 then (truncQ q0 : ℚ) else q0
  if 2 < q1 then 2 else q1

/-- The `FillSpace` loop with explicit fuel (the C++ loop runs until the
remaining gap is zero; for `0 < ppq` the fuel `dur.toNat + 1` below always
suffices).  Each iteration emits the numeric display unit `int(4 / quaters)`
(`4` = quarter, `2` = half) of one inserted `Space` element and reduces the
gap by `m_ppq * quaters` (converted back to int). -/
def fillSpaceGo (ppq : Int) : Nat → Int → List Int
  | 0, _ => []
  | fuel + 1, dur =>
    if dur = 0 then []
    else
      let q := quatersOf ppq dur
      let durVal : Int := truncQ (4 / q)
      let dur' : Int := truncQ ((dur : ℚ) - (ppq : ℚ) * q)
      durVal :: fillSpaceGo ppq fuel dur'

/-- Model of `MusicXmlInput::FillSpace` (iomusxml.cpp:277-292): the list of
numeric display units of the inserted `Space` elements, in insertion order. -/
def fillSpace (ppq dur : Int) : List Int :=
  fillSpaceGo ppq (dur.toNat + 1) dur

/-- Layer events as seen by the forward/filler slice. -/
inductive FillerElem where
  | space (durVal : Int)
  | mRestInvisible
  | note (uuid : String)
deriving DecidableEq, Repr

/-- State for the forward slice: the duration cursor `m_durTotal`, the
document time unit `m_ppq` and the target layer's event list. -/
structure ForwardState where
  durTotal : Int
  ppq : Int
  layerElems : List FillerElem
deriving DecidableEq, Repr

/-- Model of `MusicXmlInput::ReadMusicXmlForward` (iomusxml.cpp:1100-1123),
with the sibling look-around queries passed as booleans: the cursor advances;
if a note follows, filler sized to the forward duration is inserted; else if
no note or backup precedes, an invisible whole-measure rest is inserted. -/
def readMusicXmlForward (dur : Int) (hasNextNote hasPrevNote hasPrecedingBackup : Bool)
    (s : ForwardState) : ForwardState :=
  let s := { s with durTotal := s.durTotal + dur }
  if hasNextNote then
    { s with layerElems := s.layerElems ++ (fillSpace s.ppq dur).map FillerElem.space }
  else if !hasPrevNote && !hasPrecedingBackup then
    { s with layerElems := s.layerElems ++ [FillerElem.mRestInvisible] }
  else s

/-- The following note's insertion into the same layer, reduced to the event
append relevant to the filler ordering. -/
def readNoteIntoLayer (uuid : String) (s : ForwardState) : ForwardState :=
  { s with layerElems := s.layerElems ++ [FillerElem.note uuid] }

--------------------------------------------------------------------------------
-- Global staff numbering (part-list loop of ReadMusicXml, iomusxml.cpp:462-509;
-- staffDef creation in ReadMusicXmlPartAttributesAsStaffDef, :574-760;
-- staff creation in ReadMusicXmlMeasure, :793-800)
--------------------------------------------------------------------------------

/-- Staff-count update from one leading element's `staves` declaration
(iomusxml.cpp:592-598): a declared value is used if positive, else 1; an
element without a declaration leaves the count unchanged. -/
def updateNbStaves (nb : Nat) (decl : Option Int) : Nat :=
  match decl with
  | none => nb
  | some v => if 0 < v then v.toNat else 1

/-- The find-or-create pass of `ReadMusicXmlPartAttributesAsStaffDef`
(iomusxml.cpp:581-756): for each leading element (attributes, barline, print
or sound) the staff count is updated, then the staffDefs `1..nbStaves` (local
numbering) missing so far are created in index order.  Returns the final
staff count and the created staffDef local numbers in creation order. -/
def partScanGo : List (Option Int) → Nat → List Nat → Nat × List Nat
  | [], nb, created => (nb, created)
  | d :: rest, nb, created =>
    let nb' := updateNbStaves nb d
    let newOnes := ((List.range nb').map (· + 1)).filter (fun n => !created.contains n)
    partScanGo rest nb' (created ++ newOnes)

/-- Scan of one part's first-measure leading elements, starting from the
default staff count 1 and no created staffDefs. -/
def partScan (elems : List (Option Int)) : Nat × List Nat :=
  partScanGo elems 1 []

/-- One `score-part`: whether its first measure has an `attributes` element
(otherwise the part is skipped entirely), and the `staves` declarations of
its first measure's leading elements. -/
structure PartSpec where
  hasAttributes : Bool
  elems : List (Option Int)
deriving DecidableEq, Repr

/-- The part-list loop of `ReadMusicXml` (iomusxml.cpp:462-509) combined with
the per-measure staff creation (:793-800): for each processed part the global
staffDef numbers (`local + staffOffset`, creation order) and the per-measure
staff numbers (`i + 1 + staffOffset` for `i < nbStaves`); the offset advances
by the returned staff count.  Returns (staffDef number lists, measure staff
number lists, final offset). -/
def processParts : List PartSpec → Nat → List (List Nat) × List (List Nat) × Nat
  | [], off => ([], [], off)
  | p :: rest, off =>
    if p.hasAttributes then
      let nb := (partScan p.elems).1
      let created := (partScan p.elems).2
      let r := processParts rest (off + nb)
      ((created.map (· + off)) :: r.1, ((List.range nb).map (· + 1 + off)) :: r.2.1, r.2.2)
    else processParts rest off

/-- A part is well-behaved when its scan creates exactly the staffDefs
`1..nbStaves` for the returned count `nbStaves` (true in particular whenever
the declared staff count never decreases across the leading elements). -/
def goodPart (p : PartSpec) : Prop :=
  (partScan p.elems).2 = (List.range (partScan p.elems).1).map (· + 1)

/-- The staff counts of the processed parts, in order. -/
def processedCounts (parts : List PartSpec) : List Nat :=
  (parts.filter (fun p => p.hasAttributes)).map (fun p => (partScan p.elems).1)

/-- Ideal global staff numbering as the spec words it: part `k+1`'s staves
are numbered from `1 +` the sum of the staff counts of parts `1..k`.  This
definition follows the spec sentence and is compared against `processParts`. -/
def specStaffNumbering : List Nat → Nat → List (List Nat)
  | [], _ => []
  | n :: rest, off => ((List.range n).map (· + 1 + off)) :: specStaffNumbering rest (off + n)

/-- Concrete malformed part list: the first part's leading elements declare 2
staves and then 1 staff, so the scan creates staffDefs 1 and 2 but returns
count 1. -/
def cexParts : List PartSpec :=
  [{ hasAttributes := true, elems := [some 2, some 1] },
   { hasAttributes := true, elems := [none] }]

/-- Concrete well-behaved part list: one two-staff part, one one-staff part. -/
def goodParts : List PartSpec :=
  [{ hasAttributes := true, elems := [some 2] },
   { hasAttributes := true, elems := [none] }]

--------------------------------------------------------------------------------
-- Concrete inputs used by the closed instances below
--------------------------------------------------------------------------------

/-- A failed parse attempt whose partial tree is empty. -/
def failParse : ParseAttempt := { ok := false, rootPresent := false }

/-- A concrete destination document distinct from the post-import one. -/
def doc0 : Doc := { docType := DocFileType.Rendered, hasScoreContent := false }

/-- A tie-resolver state holding one pending tie (id 5) with key `tieKey0`. -/
def tieStateOne : TieState :=
  { tieStack := [(5, tieKey0)], ties := fun _ => {}, warnings := 0 }

/-- The two-note chord scenario of the spec (`note(C4,quarter)` followed by
`note(E4,quarter,chord)`), run through the chord slice from an empty layer. -/
def c5State (dots : Nat) (u1 u2 cu1 cu2 : String) : LayerState :=
  readNoteChordPhase ("quarter") dots false u2 cu2
    (readNoteChordPhase ("quarter") dots true u1 cu1
      { arena := [], layerChildren := [], elementStack := [] })

/-- The octave-shift scenario of the spec: `octave-shift type=down size=8` on
a staff, three pitched notes on that same staff, then the stop; returns the
three note outputs and the final state.  The two handlers resolve the staff's
number differently: the direction branches use the raw local `<staff>` value
`staffLocal` as the `m_octDis` index, the staff attribute and the stop's
match key (iomusxml.cpp:1029, :1037, :1049, :1052), while the note slice
sees the same staff through `staff->GetN()`, the global number
`staffLocal + staffOffset` assigned in `ReadMusicXmlMeasure` (:797, read at
:1311, written back at :1696).  The two coincide exactly when the part's
`staffOffset` is 0, that is in the first part. -/
def c4Run (staffLocal staffOffset : Nat) (f : Nat → Int) (o1 o2 o3 : Int)
    (u0 u1 u2 u3 : String) : (NoteOut × NoteOut × NoteOut) × OctState :=
  let st1 := readOctaveShiftStart true 8 staffLocal
    { octDis := f, controlOctaves := [], octaveStack := [], mID := u0 }
  let r1 := readNoteOctavePhase (staffLocal + staffOffset) o1 u1 st1
  let r2 := readNoteOctavePhase (staffLocal + staffOffset) o2 u2 r1.2
  let r3 := readNoteOctavePhase (staffLocal + staffOffset) o3 u3 r2.2
  ((r1.1, r2.1, r3.1), readOctaveShiftStop staffLocal r3.2)

--------------------------------------------------------------------------------
-- Helper lemmas on the pending-match scans
--------------------------------------------------------------------------------

/-- A tie scan over a stack with no matching key finds nothing. -/
theorem closeTieScan_none (k : TieKey) (l : List (Nat × TieKey))
    (h : ∀ e ∈ l, e.2 ≠ k) : closeTieScan k l = none := by
  induction l with
  | nil => rfl
  | cons e rest ih =>
    have he : e.2 ≠ k := h e (by simp)
    have hr := ih (fun x hx => h x (by simp [hx]))
    simp [closeTieScan, he, hr]

/-- The tie scan finds the first matching entry, in insertion order. -/
theorem closeTieScan_append (k : TieKey) (t : Nat) (a b : List (Nat × TieKey))
    (ha : ∀ e ∈ a, e.2 ≠ k) :
    closeTieScan k (a ++ (t, k) :: b) = some (t, a ++ b) := by
  induction a with
  | nil => simp [closeTieScan]
  | cons e rest ih =>
    have he : e.2 ≠ k := ha e (by simp)
    have hr := ih (fun x hx => ha x (by simp [hx]))
    simp [closeTieScan, he, hr]

/-- A slur scan over a stack with no matching key finds nothing. -/
theorem closeSlurScan_none (k : SlurKey) (l : List (Nat × SlurKey))
    (h : ∀ e ∈ l, e.2 ≠ k) : closeSlurScan k l = none := by
  induction l with
  | nil => rfl
  | cons e rest ih =>
    have he : e.2 ≠ k := h e (by simp)
    have hr := ih (fun x hx => h x (by simp [hx]))
    simp [closeSlurScan, he, hr]

/-- On a stack whose keys are pairwise distinct, a present entry is the
unique match: the stack splits around it with no other match on either side,
and the scan returns exactly that entry. -/
theorem closeTieScan_nodup (k : TieKey) (t : Nat) (l : List (Nat × TieKey))
    (hnd : (l.map Prod.snd).Nodup) (hmem : (t, k) ∈ l) :
    ∃ a b, l = a ++ (t, k) :: b ∧ (∀ e ∈ a, e.2 ≠ k) ∧ (∀ e ∈ b, e.2 ≠ k) ∧
      closeTieScan k l = some (t, a ++ b) := by
  induction l with
  | nil => cases hmem
  | cons e rest ih =>
    rcases List.mem_cons.mp hmem with heq | hmem'
    · refine ⟨[], rest, ?_, by simp, ?_, ?_⟩
      · simp [← heq]
      · intro x hx hxk
        have hk : k ∈ rest.map Prod.snd := hxk ▸ List.mem_map_of_mem Prod.snd hx
        have : e.2 ∉ rest.map Prod.snd := (List.nodup_cons.mp (by simpa using hnd)).1
        rw [← heq] at this
        exact this hk
      · simp [closeTieScan, ← heq]
    · have hek : e.2 ≠ k := by
        intro hxk
        have hk : k ∈ rest.map Prod.snd := by
          have : (t, k).2 ∈ rest.map Prod.snd := List.mem_map_of_mem Prod.snd hmem'
          simpa using this
        have : e.2 ∉ rest.map Prod.snd := (List.nodup_cons.mp (by simpa using hnd)).1
        exact this (hxk ▸ hk)
      obtain ⟨a, b, hl, ha, hb, hscan⟩ :=
        ih (List.nodup_cons.mp (by simpa using hnd)).2 hmem'
      refine ⟨e :: a, b, by simp [hl], ?_, hb, ?_⟩
      · intro x hx
        rcases List.mem_cons.mp hx with h1 | h2
        · exact h1 ▸ hek
        · exact ha x h2
      · simp [closeTieScan, hek, hscan]

--------------------------------------------------------------------------------
-- C1: entry-point behavior on parse failure
--------------------------------------------------------------------------------

/-- C1 counterexample: at the concrete unparsable input, `ImportString` does
not return false (it ignores the parse result and converts the remnant), and
the destination document is mutated — refuting the claim that both entry
points return false and leave the destination unchanged. -/
theorem c1_counterexample :
    ¬ (((importString failParse doc0).1 = false) ∧ ((importString failParse doc0).2 = doc0)) := by
  decide

/-- C1 amended: on a failed parse, `ImportFile` returns false and builds no
score, but has already set the destination's type to `Raw`; `ImportString`
ignores the parse result, runs the conversion on the parse remnant, mutates
the destination and returns the conversion's result, true. -/
theorem c1_amended (p : ParseAttempt) (d : Doc) (hp : p.ok = false) :
    (importFile p d).1 = false ∧
    (importFile p d).2 = { d with docType := DocFileType.Raw } ∧
    (importFile p d).2.hasScoreContent = d.hasScoreContent ∧
    (importString p d).1 = true ∧
    (importString p d).2.hasScoreContent = true := by
  simp [importFile, importString, readMusicXml, hp]

/-- C1 witness: the amended theorem applied at a concrete failed parse. -/
theorem c1_witness :
    (importFile failParse doc0).1 = false ∧ (importString failParse doc0).1 = true := by
  have h := c1_amended failParse doc0 rfl
  exact ⟨h.1, h.2.2.2.1⟩

--------------------------------------------------------------------------------
-- C9: lookup tables
--------------------------------------------------------------------------------

/-- C9 counterexample: the invalid orientation string maps to the sentinel
but triggers zero warnings, refuting "exactly one warning per call". -/
theorem c9_counterexample :
    ¬ ((convertOrientationToCurvedir ("overunder")).2 = 1) := by
  decide

/-- C9 amended: every valid vocabulary string maps, deterministically, to a
non-sentinel value with no warning; every invalid string maps to the NONE
sentinel; `ConvertTypeToDur` logs exactly one warning per invalid call, while
`ConvertOrientationToCurvedir` logs none. -/
theorem c9_amended (sv so : String) (hv : sv ∉ validDurTypes)
    (ho : so ≠ "over" ∧ so ≠ "under") :
    (∀ v ∈ validDurTypes,
      (convertTypeToDur v).2 = 0 ∧ (convertTypeToDur v).1 ≠ DataDuration.NONE) ∧
    convertTypeToDur sv = (DataDuration.NONE, 1) ∧
    convertOrientationToCurvedir ("over") = (CurvatureDir.above, 0) ∧
    convertOrientationToCurvedir ("under") = (CurvatureDir.below, 0) ∧
    convertOrientationToCurvedir so = (CurvatureDir.NONE, 0) := by
  have h := hv
  simp only [validDurTypes, List.mem_cons, List.not_mem_nil, or_false, not_or] at h
  obtain ⟨h1, h2, h3, h4, h5, h6, h7, h8, h9, h10, h11, h12⟩ := h
  refine ⟨by decide, ?_, by decide, by decide, ?_⟩
  · simp [convertTypeToDur, h1, h2, h3, h4, h5, h6, h7, h8, h9, h10, h11, h12]
  · simp [convertOrientationToCurvedir, ho.1, ho.2]

/-- C9 witness: the amended theorem applied at concrete invalid strings. -/
theorem c9_witness :
    convertTypeToDur ("foo") = (DataDuration.NONE, 1) ∧
    convertOrientationToCurvedir ("bar") = (CurvatureDir.NONE, 0) := by
  have h := c9_amended ("foo") ("bar") (by decide) (by decide)
  exact ⟨h.2.1, h.2.2.2.2⟩

--------------------------------------------------------------------------------
-- C2: tie round-trip
--------------------------------------------------------------------------------

/-- C2: `OpenTie` records the four-field key (appended to the pending list)
and sets the tie's start reference to "#" plus the opening note's identifier;
a later `CloseTie` on a matching note removes the first pending entry in
insertion order matching all four fields (last conjunct, for an arbitrary
stack position) and sets the tie's end reference to "#" plus the closing
note's identifier, after which the pending list no longer contains the
entry. -/
theorem c2_tie_roundtrip (k : TieKey) (t : Nat) (u1 u2 : String) (s : TieState)
    (hpre : ∀ e ∈ s.tieStack, e.2 ≠ k) :
    ((openTie t k u1 s).ties t).startid = some ("#" ++ u1) ∧
    (openTie t k u1 s).tieStack = s.tieStack ++ [(t, k)] ∧
    ((closeTie k u2 true (openTie t k u1 s)).ties t).startid = some ("#" ++ u1) ∧
    ((closeTie k u2 true (openTie t k u1 s)).ties t).endid = some ("#" ++ u2) ∧
    (closeTie k u2 true (openTie t k u1 s)).tieStack = s.tieStack ∧
    (∀ e ∈ (closeTie k u2 true (openTie t k u1 s)).tieStack, e.2 ≠ k) ∧
    (∀ (st : TieState) (a b : List (Nat × TieKey)) (t' : Nat) (u : String) (c : Bool),
      st.tieStack = a ++ (t', k) :: b → (∀ e ∈ a, e.2 ≠ k) →
      (closeTie k u c st).tieStack = a ++ b) := by
  have hscan : closeTieScan k (s.tieStack ++ [(t, k)]) = some (t, s.tieStack) := by
    have h := closeTieScan_append k t s.tieStack [] hpre
    simpa using h
  refine ⟨by simp [openTie], rfl, ?_, ?_, ?_, ?_, ?_⟩
  · simp [closeTie, openTie, hscan]
  · simp [closeTie, openTie, hscan]
  · simp [closeTie, openTie, hscan]
  · intro e he
    rw [show (closeTie k u2 true (openTie t k u1 s)).tieStack = s.tieStack by
      simp [closeTie, openTie, hscan]] at he
    exact hpre e he
  · intro st a b t' u c hst ha
    have hs : closeTieScan k st.tieStack = some (t', a ++ b) := by
      rw [hst]; exact closeTieScan_append k t' a b ha
    simp [closeTie, hs]

/-- C2 witness: the round-trip applied with an empty initial pending list. -/
theorem c2_witness :
    ((closeTie tieKey0 ("u2") true (openTie 3 tieKey0 ("u1") tieState0)).ties 3).startid =
      some ("#" ++ "u1") ∧
    ((closeTie tieKey0 ("u2") true (openTie 3 tieKey0 ("u1") tieState0)).ties 3).endid =
      some ("#" ++ "u2") ∧
    (closeTie tieKey0 ("u2") true (openTie 3 tieKey0 ("u1") tieState0)).tieStack = [] := by
  have h := c2_tie_roundtrip tieKey0 3 ("u1") ("u2") tieState0 (by simp [tieState0])
  refine ⟨h.2.2.1, h.2.2.2.1, ?_⟩
  have h5 := h.2.2.2.2.1
  simpa [tieState0] using h5

--------------------------------------------------------------------------------
-- C3: unmatched close of a spanning annotation
--------------------------------------------------------------------------------

/-- C3 counterexample: closing a tie against an empty pending list emits no
warning at all, refuting the claim that every unmatched close of a tie or
slur emits a warning. -/
theorem c3_counterexample :
    ¬ (tieState0.warnings < (closeTie tieKey0 ("u") true tieState0).warnings) := by
  simp [closeTie, closeTieScan, tieState0]

/-- C3 amended: an unmatched `CloseTie` is entirely silent (no warning) and
leaves the whole state unchanged; an unmatched `CloseSlur` leaves the pending
list and the slur references unchanged and logs exactly one warning; neither
ever fails the conversion (both are total). -/
theorem c3_amended (tk : TieKey) (sk : SlurKey) (u1 u2 : String) (c : Bool)
    (ts : TieState) (ss : SlurState)
    (ht : ∀ e ∈ ts.tieStack, e.2 ≠ tk) (hs : ∀ e ∈ ss.slurStack, e.2 ≠ sk) :
    closeTie tk u1 c ts = ts ∧
    (closeSlur sk u2 ss).slurStack = ss.slurStack ∧
    (closeSlur sk u2 ss).slurs = ss.slurs ∧
    (closeSlur sk u2 ss).warnings = ss.warnings + 1 := by
  have h1 : closeTieScan tk ts.tieStack = none := closeTieScan_none tk ts.tieStack ht
  have h2 : closeSlurScan sk ss.slurStack = none := closeSlurScan_none sk ss.slurStack hs
  refine ⟨?_, ?_, ?_, ?_⟩ <;> simp [closeTie, closeSlur, h1, h2]

/-- C3 witness: the amended theorem applied at empty pending lists. -/
theorem c3_witness :
    closeTie tieKey0 ("u1") true tieState0 = tieState0 ∧
    (closeSlur slurKey0 ("u2") slurState0).warnings = slurState0.warnings + 1 := by
  have h := c3_amended tieKey0 slurKey0 ("u1") ("u2") true tieState0 slurState0
    (by simp [tieState0]) (by simp [slurState0])
  exact ⟨h.1, h.2.2.2⟩

--------------------------------------------------------------------------------
-- C10: the tie-closing routine runs for every pitched note
--------------------------------------------------------------------------------

/-- C10: the tie phase of `ReadMusicXmlNote` calls `CloseTie` for every
pitched note, stop marking or not; when a pending tie matches the note's
staff, voice, pitch letter and octave (stacks built by `OpenTie` alone have
pairwise-distinct keys, so the match is unique), that tie receives the note's
reference as end id and leaves the pending list — the only entry with that
key afterwards is the tie newly opened by this very note, if any — and a
warning is logged exactly when the note carries no stop marking. -/
theorem c10_tie_autoclose (k : TieKey) (u : String) (hasStart hasStop : Bool) (t nt : Nat)
    (s : TieState) (hnd : (s.tieStack.map Prod.snd).Nodup) (hmem : (t, k) ∈ s.tieStack) :
    ((noteTiePhase k u hasStart hasStop nt s).ties t).endid = some ("#" ++ u) ∧
    ((noteTiePhase k u hasStart hasStop nt s).tieStack.filter (fun e => e.2 == k)) =
      (if hasStart then [(nt, k)] else []) ∧
    (noteTiePhase k u hasStart hasStop nt s).warnings =
      s.warnings + (if hasStop then 0 else 1) ∧
    ((noteTiePhase k u hasStart hasStop nt s).tieStack.map Prod.snd).Nodup := by
  obtain ⟨a, b, hl, ha, hb, hscan⟩ := closeTieScan_nodup k t s.tieStack hnd hmem
  have hnd' : ((a ++ b).map Prod.snd).Nodup := by
    have hsub : List.Sublist ((a ++ b).map Prod.snd) ((a ++ (t, k) :: b).map Prod.snd) :=
      List.Sublist.map Prod.snd ((List.sublist_cons_self (t, k) b).append_left a)
    exact List.Nodup.sublist hsub (hl ▸ hnd)
  have hknotin : k ∉ (a ++ b).map Prod.snd := by
    intro hk
    obtain ⟨e, he, hek⟩ := List.mem_map.mp hk
    rcases List.mem_append.mp he with h1 | h2
    · exact ha e h1 hek
    · exact hb e h2 hek
  have hab : ∀ e ∈ a ++ b, (fun e : Nat × TieKey => e.2 == k) e = false := by
    intro e he
    rcases List.mem_append.mp he with h1 | h2
    · simpa using ha e h1
    · simpa using hb e h2
  have hfa : a.filter (fun e : Nat × TieKey => e.2 == k) = [] := by
    rw [List.filter_eq_nil_iff]
    intro e he
    simpa using ha e he
  have hfb : b.filter (fun e : Nat × TieKey => e.2 == k) = [] := by
    rw [List.filter_eq_nil_iff]
    intro e he
    simpa using hb e he
  have hfil : (a ++ b).filter (fun e : Nat × TieKey => e.2 == k) = [] := by
    rw [List.filter_append, hfa, hfb]
    rfl
  cases hasStart with
  | false =>
    refine ⟨?_, ?_, ?_, ?_⟩
    · simp [noteTiePhase, closeTie, hscan, hfil]
    · simp [noteTiePhase, closeTie, hscan, hfil]
    · simp [noteTiePhase, closeTie, hscan, hfil]
    · rw [show (noteTiePhase k u false hasStop nt s).tieStack = a ++ b from by
        simp [noteTiePhase, closeTie, hscan]]
      exact hnd'
  | true =>
    refine ⟨?_, ?_, ?_, ?_⟩
    · by_cases hnt : t = nt
      · subst hnt
        simp [noteTiePhase, openTie, closeTie, hscan]
      · simp [noteTiePhase, openTie, closeTie, hscan, hnt]
    · simp [noteTiePhase, openTie, closeTie, hscan, List.filter_append, hfa, hfb]
    · simp [noteTiePhase, openTie, closeTie, hscan]
    · rw [show (noteTiePhase k u true hasStop nt s).tieStack = (a ++ b) ++ [(nt, k)] from by
        simp [noteTiePhase, openTie, closeTie, hscan]]
      rw [List.map_append]
      refine List.Nodup.append hnd' (by simp) ?_
      intro x hx hx2
      rw [show ([(nt, k)].map Prod.snd) = [k] from rfl] at hx2
      rw [List.mem_singleton] at hx2
      exact hknotin (hx2 ▸ hx)

/-- C10 witness: a pending tie with no stop marking on the closing note is
still closed, with one warning. -/
theorem c10_witness :
    ((noteTiePhase tieKey0 ("u") false false 7 tieStateOne).ties 5).endid =
      some ("#" ++ "u") ∧
    (noteTiePhase tieKey0 ("u") false false 7 tieStateOne).warnings = 1 := by
  have h := c10_tie_autoclose tieKey0 ("u") false false 5 7 tieStateOne
    (by simp [tieStateOne]) (by simp [tieStateOne])
  exact ⟨h.1, by simpa [tieStateOne] using h.2.2.1⟩

--------------------------------------------------------------------------------
-- C5: chord scenario
--------------------------------------------------------------------------------

/-- C5: a pitched note followed by a second pitched note marked as chord
member (and no further members) yields exactly one chord container (arena
index 1) owning exactly the two notes (indices 0 and 2) as the layer's only
direct child; duration class and dot count sit on the chord, neither note
carries them; and the chord is popped off the nesting stack after the second
note. -/
theorem c5_chord_scenario (dots : Nat) (u1 u2 cu1 cu2 : String) :
    (c5State dots u1 u2 cu1 cu2).layerChildren = [1] ∧
    ((c5State dots u1 u2 cu1 cu2).arena.filter (fun e => e.kind == ClassId.CHORD)).length = 1 ∧
    (c5State dots u1 u2 cu1 cu2).arena.getD 1 default =
      { kind := ClassId.CHORD, uuid := cu1,
        dur := some DataDuration.n4,
        dots := if 0 < dots then some dots else none,
        children := [0, 2] } ∧
    ((c5State dots u1 u2 cu1 cu2).arena.getD 0 default).kind = ClassId.NOTE ∧
    ((c5State dots u1 u2 cu1 cu2).arena.getD 0 default).uuid = u1 ∧
    ((c5State dots u1 u2 cu1 cu2).arena.getD 0 default).dur = none ∧
    ((c5State dots u1 u2 cu1 cu2).arena.getD 0 default).dots = none ∧
    ((c5State dots u1 u2 cu1 cu2).arena.getD 2 default).kind = ClassId.NOTE ∧
    ((c5State dots u1 u2 cu1 cu2).arena.getD 2 default).uuid = u2 ∧
    ((c5State dots u1 u2 cu1 cu2).arena.getD 2 default).dur = none ∧
    ((c5State dots u1 u2 cu1 cu2).arena.getD 2 default).dots = none ∧
    (c5State dots u1 u2 cu1 cu2).elementStack = [] := by
  refine ⟨?_, ?_, ?_, ?_, ?_, ?_, ?_, ?_, ?_, ?_, ?_, ?_⟩ <;>
    simp [c5State, readNoteChordPhase, addLayerElement, stackTopIsChord, removeLastChord,
      removeLastFromStack, convertTypeToDur]

--------------------------------------------------------------------------------
-- C4: octave-shift scenario
--------------------------------------------------------------------------------

/-- C4 counterexample: the scenario on the first staff of a part that has one
staff before it (`staffOffset` 1): the direction writes `m_octDis[1]` but the
notes read `m_octDis[2]`, so no note is displaced (written octave 4, not 3)
and no sounding octave is recorded; and the first note's flush rewrites the
octave bracket's staff attribute to the global number 2, so the stop's scan
(matching the local number 1) assigns no end reference — refuting the claim
as stated for documents with more than one part. -/
theorem c4_counterexample :
    ¬ ((c4Run 1 1 (fun _ => 0) 4 4 4 ("u0") ("u1") ("u2") ("u3")).1.1.oct = 4 - 1 ∧
       (c4Run 1 1 (fun _ => 0) 4 4 4 ("u0") ("u1") ("u2") ("u3")).1.1.octGes = some 4 ∧
       (c4Run 1 1 (fun _ => 0) 4 4 4 ("u0") ("u1") ("u2") ("u3")).1.2.1.oct = 4 - 1 ∧
       (c4Run 1 1 (fun _ => 0) 4 4 4 ("u0") ("u1") ("u2") ("u3")).1.2.2.oct = 4 - 1 ∧
       ((c4Run 1 1 (fun _ => 0) 4 4 4 ("u0") ("u1") ("u2") ("u3")).2.controlOctaves.getD
          0 default).endid = some ("#" ++ "u3")) := by
  decide

/-- C4 amended: after `octave-shift type=down size=8` on a staff of the first
part (`staffOffset` 0, when the direction's local staff number and the notes'
global staff number coincide), each of the three following pitched notes on
that staff is written one octave below its literal pitch octave, the literal
octave being recorded in the sounding-octave field; the stop clears the
staff's displacement to 0; and the octave annotation's end reference is "#"
plus the third note's identifier.  In later parts the displacement is
written and read at different indices and the scenario fails (see the
counterexample). -/
theorem c4_amended (s : Nat) (f : Nat → Int) (o1 o2 o3 : Int) (u0 u1 u2 u3 : String) :
    (c4Run s 0 f o1 o2 o3 u0 u1 u2 u3).1.1.oct = o1 - 1 ∧
    (c4Run s 0 f o1 o2 o3 u0 u1 u2 u3).1.1.octGes = some o1 ∧
    (c4Run s 0 f o1 o2 o3 u0 u1 u2 u3).1.2.1.oct = o2 - 1 ∧
    (c4Run s 0 f o1 o2 o3 u0 u1 u2 u3).1.2.1.octGes = some o2 ∧
    (c4Run s 0 f o1 o2 o3 u0 u1 u2 u3).1.2.2.oct = o3 - 1 ∧
    (c4Run s 0 f o1 o2 o3 u0 u1 u2 u3).1.2.2.octGes = some o3 ∧
    (c4Run s 0 f o1 o2 o3 u0 u1 u2 u3).2.octDis s = 0 ∧
    (c4Run s 0 f o1 o2 o3 u0 u1 u2 u3).2.controlOctaves =
      [{ staffAttr := [s], startid := some ("#" ++ u1), endid := some ("#" ++ u3) }] := by
  have hdis : Int.tdiv (8 + 2) 8 = 1 := by decide
  simp only [c4Run, readOctaveShiftStart, readNoteOctavePhase, readOctaveShiftStop, hdis,
    Nat.add_zero]
  norm_num
  omega

--------------------------------------------------------------------------------
-- C7: nesting-stack closing rule
--------------------------------------------------------------------------------

/-- C7: removing an ended container kind deletes the nearest stack entry of
that kind searching from the top downward — entries above the removed one
(the suffix `b`) stay in place and in order — and is a no-op when no entry of
the kind is on the stack. -/
theorem c7_remove_nearest {α : Type} (isC : α → Bool) :
    (∀ stack : List α, (∀ e ∈ stack, isC e = false) →
      removeLastFromStack isC stack = stack) ∧
    (∀ (a b : List α) (x : α), isC x = true → (∀ e ∈ b, isC e = false) →
      removeLastFromStack isC (a ++ x :: b) = a ++ b) := by
  constructor
  · intro stack h
    unfold removeLastFromStack
    rw [List.eraseP_of_forall_not, List.reverse_reverse]
    intro e he
    simp [h e (List.mem_reverse.mp he)]
  · intro a b x hx hb
    have hbrev : ∀ e ∈ b.reverse, ¬(isC e = true) := by
      intro e he
      simp [hb e (List.mem_reverse.mp he)]
    unfold removeLastFromStack
    rw [List.reverse_append, List.reverse_cons, List.append_assoc, List.singleton_append,
      List.eraseP_append_right _ hbrev, List.eraseP_cons_of_pos hx]
    simp

/-- C7 witness: popping a chord end marker removes the chord entry below the
top while the beam above it stays; removing from a chord-free stack changes
nothing. -/
theorem c7_witness :
    removeLastFromStack (fun e => e == ClassId.CHORD)
      [ClassId.TUPLET, ClassId.CHORD, ClassId.BEAM] = [ClassId.TUPLET, ClassId.BEAM] ∧
    removeLastFromStack (fun e => e == ClassId.CHORD)
      [ClassId.TUPLET, ClassId.BEAM] = [ClassId.TUPLET, ClassId.BEAM] := by
  have h := c7_remove_nearest (fun e => e == ClassId.CHORD)
  exact ⟨h.2 [ClassId.TUPLET] [ClassId.BEAM] ClassId.CHORD (by decide) (by decide),
    h.1 [ClassId.TUPLET, ClassId.BEAM] (by decide)⟩

--------------------------------------------------------------------------------
-- Helper lemmas for the FillSpace arithmetic
--------------------------------------------------------------------------------

/-- Truncation toward zero agrees with the floor on non-negative rationals. -/
theorem truncQ_of_nonneg (q : ℚ) (h : 0 ≤ q) : truncQ q = Int.floor q := by
  simp [truncQ, not_lt.mpr h]

/-- Truncation of an integer-valued rational is that integer. -/
theorem truncQ_intCast (n : Int) : truncQ (n : ℚ) = n := by
  by_cases h : (n : ℚ) < 0
  · rw [truncQ, if_pos h, ← Int.cast_neg, Int.floor_intCast]
    ring
  · rw [truncQ, if_neg h, Int.floor_intCast]

/-- Truncation toward zero preserves non-negativity. -/
theorem truncQ_nonneg (q : ℚ) (h : 0 ≤ q) : 0 ≤ truncQ q := by
  rw [truncQ_of_nonneg q h]
  exact Int.floor_nonneg.mpr h

/-- The per-iteration `quaters` value never exceeds two (the explicit cap). -/
theorem quatersOf_le_two (ppq dur : Int) : quatersOf ppq dur ≤ 2 := by
  unfold quatersOf
  by_cases h1 : 1 < (dur : ℚ) / (ppq : ℚ)
  · simp only [if_pos h1]
    split
    · exact le_refl 2
    · next h => exact le_of_not_lt h
  · simp only [if_neg h1]
    split
    · exact le_refl 2
    · next h => exact le_of_not_lt h

/-- The per-iteration `quaters` value is positive on a positive gap. -/
theorem quatersOf_pos (ppq dur : Int) (hp : 0 < ppq) (hd : 0 < dur) :
    0 < quatersOf ppq dur := by
  have hq0 : 0 < (dur : ℚ) / (ppq : ℚ) :=
    div_pos (by exact_mod_cast hd) (by exact_mod_cast hp)
  unfold quatersOf
  by_cases h1 : 1 < (dur : ℚ) / (ppq : ℚ)
  · have hfl : (1 : ℤ) ≤ ⌊(dur : ℚ) / (ppq : ℚ)⌋ := Int.le_floor.mpr (by exact_mod_cast h1.le)
    have htr : (1 : ℚ) ≤ (truncQ ((dur : ℚ) / (ppq : ℚ)) : ℚ) := by
      rw [truncQ_of_nonneg _ hq0.le]
      exact_mod_cast hfl
    simp only [if_pos h1]
    split
    · norm_num
    · linarith
  · simp only [if_neg h1]
    split
    · norm_num
    · linarith

/-- The per-iteration `quaters` value never exceeds the exact gap in quarter
notes (truncation and capping only shrink it). -/
theorem quatersOf_le_div (ppq dur : Int) (hp : 0 < ppq) (hd : 0 < dur) :
    quatersOf ppq dur ≤ (dur : ℚ) / (ppq : ℚ) := by
  have hq0 : 0 < (dur : ℚ) / (ppq : ℚ) :=
    div_pos (by exact_mod_cast hd) (by exact_mod_cast hp)
  unfold quatersOf
  by_cases h1 : 1 < (dur : ℚ) / (ppq : ℚ)
  · have hfl : (truncQ ((dur : ℚ) / (ppq : ℚ)) : ℚ) ≤ (dur : ℚ) / (ppq : ℚ) := by
      rw [truncQ_of_nonneg _ hq0.le]
      exact_mod_cast Int.floor_le _
    simp only [if_pos h1]
    split
    · next h2 => linarith
    · exact hfl
  · simp only [if_neg h1]
    split
    · next h2 => linarith
    · exact le_refl _

/-- When the gap exceeds two quarter notes the cap makes `quaters` exactly
two (half-note equivalent). -/
theorem quatersOf_eq_two (ppq dur : Int)
    (h : 2 < (dur : ℚ) / (ppq : ℚ)) : quatersOf ppq dur = 2 := by
  have h1 : 1 < (dur : ℚ) / (ppq : ℚ) := by linarith
  have hq0 : 0 ≤ (dur : ℚ) / (ppq : ℚ) := by linarith
  have hfl2 : (2 : ℤ) ≤ ⌊(dur : ℚ) / (ppq : ℚ)⌋ := Int.le_floor.mpr (by exact_mod_cast h.le)
  unfold quatersOf
  simp only [if_pos h1]
  rw [truncQ_of_nonneg _ hq0]
  split
  · rfl
  · next h2 =>
    have hle : (⌊(dur : ℚ) / (ppq : ℚ)⌋ : ℚ) ≤ 2 := le_of_not_lt h2
    have hge : (2 : ℚ) ≤ (⌊(dur : ℚ) / (ppq : ℚ)⌋ : ℚ) := by exact_mod_cast hfl2
    linarith

/-- Every emitted display unit is at least 2 (a half note or shorter). -/
theorem fillSpace_durVal_ge_two (ppq dur : Int) (hp : 0 < ppq) (hd : 0 < dur) :
    2 ≤ truncQ (4 / quatersOf ppq dur) := by
  have hqpos := quatersOf_pos ppq dur hp hd
  have hqle := quatersOf_le_two ppq dur
  have h42 : (2 : ℚ) ≤ 4 / quatersOf ppq dur := by
    rw [le_div_iff₀ hqpos]
    linarith
  rw [truncQ_of_nonneg _ (by linarith)]
  exact Int.le_floor.mpr (by exact_mod_cast h42)

/-- The remaining gap after one iteration stays non-negative. -/
theorem fillSpace_next_nonneg (ppq dur : Int) (hp : 0 < ppq) (hd : 0 < dur) :
    0 ≤ truncQ ((dur : ℚ) - (ppq : ℚ) * quatersOf ppq dur) := by
  have hle := quatersOf_le_div ppq dur hp hd
  have hppq : (0 : ℚ) < (ppq : ℚ) := by exact_mod_cast hp
  have hmul : (ppq : ℚ) * quatersOf ppq dur ≤ (ppq : ℚ) * ((dur : ℚ) / (ppq : ℚ)) :=
    mul_le_mul_of_nonneg_left hle hppq.le
  have hcan : (ppq : ℚ) * ((dur : ℚ) / (ppq : ℚ)) = (dur : ℚ) := by
    field_simp
  exact truncQ_nonneg _ (by rw [hcan] at hmul; linarith)

/-- An exhausted gap emits nothing, whatever fuel remains. -/
theorem fillSpaceGo_zero (ppq : Int) (fuel : Nat) : fillSpaceGo ppq fuel 0 = [] := by
  cases fuel <;> simp [fillSpaceGo]

/-- One unfolding of the `FillSpace` loop on a non-zero gap. -/
theorem fillSpaceGo_succ (ppq : Int) (fuel : Nat) (dur : Int) (h : ¬(dur = 0)) :
    fillSpaceGo ppq (fuel + 1) dur =
      truncQ (4 / quatersOf ppq dur) ::
      fillSpaceGo ppq fuel (truncQ ((dur : ℚ) - (ppq : ℚ) * quatersOf ppq dur)) := by
  simp [fillSpaceGo, h]

/-- The `forward duration=480` scenario at divisions 480: a single iteration
emits one quarter-note space (unit 4) and clears the gap. -/
theorem fillSpace_scenario : fillSpace 480 480 = [4] := by
  have hq : quatersOf 480 480 = 1 := by
    unfold quatersOf
    norm_num [truncQ]
  unfold fillSpace
  rw [show (480 : Int).toNat + 1 = 480 + 1 from rfl]
  rw [fillSpaceGo_succ 480 480 480 (by norm_num), hq]
  rw [show truncQ (((480 : Int) : ℚ) - ((480 : Int) : ℚ) * 1) = 0 from by norm_num [truncQ]]
  rw [fillSpaceGo_zero]
  norm_num [truncQ]

/-- All elements emitted from a non-negative gap are half notes or shorter. -/
theorem fillSpaceGo_mem (ppq : Int) (hp : 0 < ppq) :
    ∀ (fuel : Nat) (dur : Int), 0 ≤ dur → ∀ v ∈ fillSpaceGo ppq fuel dur, 2 ≤ v := by
  intro fuel
  induction fuel with
  | zero =>
    intro dur _ v hv
    simp [fillSpaceGo] at hv
  | succ n ih =>
    intro dur hd v hv
    by_cases h0 : dur = 0
    · simp [fillSpaceGo, h0] at hv
    · have hdpos : 0 < dur := lt_of_le_of_ne hd (Ne.symm h0)
      rw [fillSpaceGo_succ ppq n dur h0] at hv
      rcases List.mem_cons.mp hv with h1 | h2
      · exact h1 ▸ fillSpace_durVal_ge_two ppq dur hp hdpos
      · exact ih _ (fillSpace_next_nonneg ppq dur hp hdpos) v h2

--------------------------------------------------------------------------------
-- C6: filler sizing
--------------------------------------------------------------------------------

/-- C6: a positive time gap makes `FillSpace` emit at least one spacer, every
emitted spacer has display unit at least 2 (so worth at most a half note),
gaps longer than two quarter notes emit at least two spacers, and the
`forward duration=480` (divisions 480) scenario followed by a note inserts
exactly one quarter-note spacer (unit 4) before that note. -/
theorem c6_filler (ppq dur : Int) (u : String) (hPrev hBackup : Bool)
    (hp : 0 < ppq) (hd : 0 < dur) :
    1 ≤ (fillSpace ppq dur).length ∧
    (∀ v ∈ fillSpace ppq dur, 2 ≤ v) ∧
    (2 * ppq < dur → 2 ≤ (fillSpace ppq dur).length) ∧
    (readNoteIntoLayer u (readMusicXmlForward 480 true hPrev hBackup
      { durTotal := 0, ppq := 480, layerElems := [] })).layerElems =
      [FillerElem.space 4, FillerElem.note u] := by
  have h0 : ¬(dur = 0) := by omega
  refine ⟨?_, ?_, ?_, ?_⟩
  · obtain ⟨m, hm⟩ : ∃ m, dur.toNat + 1 = m + 1 := ⟨dur.toNat, rfl⟩
    rw [fillSpace, hm]
    simp [fillSpaceGo, h0]
  · intro v hv
    exact fillSpaceGo_mem ppq hp _ dur hd.le v hv
  · intro h2
    have hppq : (0 : ℚ) < (ppq : ℚ) := by exact_mod_cast hp
    have hlt : (2 : ℚ) < (dur : ℚ) / (ppq : ℚ) := by
      rw [lt_div_iff₀ hppq]
      have : ((2 * ppq : ℤ) : ℚ) < ((dur : ℤ) : ℚ) := by exact_mod_cast h2
      push_cast at this
      linarith
    have hq2 : quatersOf ppq dur = 2 := quatersOf_eq_two ppq dur hlt
    have hdur' : truncQ ((dur : ℚ) - (ppq : ℚ) * quatersOf ppq dur) = dur - 2 * ppq := by
      rw [hq2]
      rw [show (dur : ℚ) - (ppq : ℚ) * 2 = ((dur - 2 * ppq : ℤ) : ℚ) from by push_cast; ring]
      exact truncQ_intCast _
    obtain ⟨m, hm⟩ : ∃ m, dur.toNat = m + 1 := ⟨dur.toNat - 1, by omega⟩
    rw [fillSpace, hm]
    rw [fillSpaceGo_succ ppq (m + 1) dur h0]
    rw [hdur']
    have h0' : ¬(dur - 2 * ppq = 0) := by omega
    rw [fillSpaceGo_succ ppq m (dur - 2 * ppq) h0']
    simp
  · simp [readMusicXmlForward, readNoteIntoLayer, fillSpace_scenario]

/-- C6 witness: the theorem applied at the scenario input. -/
theorem c6_witness :
    1 ≤ (fillSpace 480 480).length ∧
    (readNoteIntoLayer ("n") (readMusicXmlForward 480 true false false
      { durTotal := 0, ppq := 480, layerElems := [] })).layerElems =
      [FillerElem.space 4, FillerElem.note ("n")] := by
  have h := c6_filler 480 480 ("n") false false (by norm_num) (by norm_num)
  exact ⟨h.1, h.2.2.2⟩

--------------------------------------------------------------------------------
-- Helper lemmas for the staff numbering
--------------------------------------------------------------------------------

/-- Flattening the ideal numbering yields one contiguous run. -/
theorem specStaffNumbering_flatten (counts : List Nat) (off : Nat) :
    (specStaffNumbering counts off).flatten = (List.range counts.sum).map (· + 1 + off) := by
  induction counts generalizing off with
  | nil => simp [specStaffNumbering]
  | cons n rest ih =>
    simp only [specStaffNumbering, List.flatten_cons, List.sum_cons, ih]
    rw [List.range_add, List.map_append, List.map_map]
    congr 1
    refine List.map_congr_left (fun i _ => ?_)
    simp only [Function.comp]
    omega

/-- `processParts` realizes exactly the ideal numbering on well-behaved
parts: staffDef lists and measure-staff lists coincide with the spec-side
numbering and the final offset is the starting offset plus the total count. -/
theorem processParts_eq (parts : List PartSpec) (off : Nat)
    (h : ∀ p ∈ parts, p.hasAttributes = true → goodPart p) :
    processParts parts off =
      (specStaffNumbering (processedCounts parts) off,
       specStaffNumbering (processedCounts parts) off,
       off + (processedCounts parts).sum) := by
  revert h
  induction parts generalizing off with
  | nil =>
    intro h
    simp [processParts, processedCounts, specStaffNumbering]
  | cons p rest ih =>
    intro h
    by_cases hp : p.hasAttributes = true
    · have hg : goodPart p := h p (by simp) hp
      have hr := ih (off + (partScan p.elems).1) (fun q hq hqa => h q (by simp [hq]) hqa)
      have hpc : processedCounts (p :: rest) = (partScan p.elems).1 :: processedCounts rest := by
        simp [processedCounts, List.filter_cons, hp]
      rw [hpc]
      rw [show processParts (p :: rest) off =
          (((partScan p.elems).2.map (· + off)) ::
             (processParts rest (off + (partScan p.elems).1)).1,
           ((List.range (partScan p.elems).1).map (· + 1 + off)) ::
             (processParts rest (off + (partScan p.elems).1)).2.1,
           (processParts rest (off + (partScan p.elems).1)).2.2) from by
        simp [processParts, hp]]
      rw [hr, hg, List.map_map]
      simp only [specStaffNumbering, List.sum_cons]
      rw [show off + ((partScan p.elems).1 + (processedCounts rest).sum) =
            off + (partScan p.elems).1 + (processedCounts rest).sum from by omega]
      rfl
    · have hr := ih off (fun q hq hqa => h q (by simp [hq]) hqa)
      have hpc : processedCounts (p :: rest) = processedCounts rest := by
        simp [processedCounts, List.filter_cons, hp]
      rw [hpc]
      rw [show processParts (p :: rest) off = processParts rest off from by
        simp [processParts, hp]]
      exact hr

--------------------------------------------------------------------------------
-- C8: global staff numbering
--------------------------------------------------------------------------------

/-- C8 counterexample: a part whose leading elements declare 2 staves and
then 1 staff creates staffDefs 1 and 2 but advances the offset by only 1; the
next part then reuses global number 2, so the flattened staffDef numbering is
not strictly increasing and the staffDef lists differ from the measure-staff
lists — refuting the claim for every document. -/
theorem c8_counterexample :
    ¬ (List.Pairwise (· < ·) (processParts cexParts 0).1.flatten ∧
       (processParts cexParts 0).1 = (processParts cexParts 0).2.1) := by
  decide

/-- C8 amended: for documents in which every processed part's leading-element
scan creates staffDefs exactly `1..nbStaves` for its returned count (true
whenever the declared staff count never decreases across the leading
elements), the staffDef numbering equals the measure-staff numbering, both
realize the ideal numbering — part k+1 starts at 1 plus the sum of the
counts of parts 1..k — and the flattened global numbering is the strictly
increasing contiguous run `1..total`. -/
theorem c8_amended (parts : List PartSpec)
    (h : ∀ p ∈ parts, p.hasAttributes = true → goodPart p) :
    (processParts parts 0).1 = (processParts parts 0).2.1 ∧
    (processParts parts 0).1 = specStaffNumbering (processedCounts parts) 0 ∧
    (processParts parts 0).2.2 = (processedCounts parts).sum ∧
    (processParts parts 0).1.flatten =
      (List.range (processParts parts 0).2.2).map (· + 1) ∧
    List.Pairwise (· < ·) (processParts parts 0).1.flatten := by
  have he := processParts_eq parts 0 h
  rw [he]
  refine ⟨rfl, rfl, by simp, ?_, ?_⟩
  · show (specStaffNumbering (processedCounts parts) 0).flatten = _
    rw [specStaffNumbering_flatten]
    simp
  · show List.Pairwise (· < ·) (specStaffNumbering (processedCounts parts) 0).flatten
    rw [specStaffNumbering_flatten]
    exact List.Pairwise.map _ (fun a b hab => by omega) (List.pairwise_lt_range _)

/-- C8 witness: the amended theorem applied to a concrete two-part document
(2 staves then 1 staff). -/
theorem c8_witness :
    (processParts goodParts 0).1 = (processParts goodParts 0).2.1 ∧
    (processParts goodParts 0).1.flatten =
      (List.range (processParts goodParts 0).2.2).map (· + 1) := by
  have h := c8_amended goodParts (by
    intro q hq _
    fin_cases hq <;> (unfold goodPart; decide))
  exact ⟨h.1, h.2.2.2.1⟩

end Verovio
